import Mathlib

/-!
Shallow embedding of the rule-handler subsystem
(`src/packages/rule-handler/src/rule.ts`): the filter-expression parser,
the predicate model, the rule matcher and the action dispatcher, together
with theorems settling the specification claims about them.
-/

namespace RuleHandler

/-! ### Character classes (JavaScript `\w` and `\s`) -/

/-- JavaScript `\w` (without the unicode flag): `[A-Za-z0-9_]`. -/
def isWordChar (c : Char) : Bool :=
  c.isAlphanum || c = '_'

/-- JavaScript `\s`: ASCII whitespace plus the unicode space code points. -/
def isSpaceChar (c : Char) : Bool :=
  c = ' ' || c = '\t' || c = '\n' || c.val = 11 || c.val = 12 || c = '\r' ||
  c.val = 0xA0 || c.val = 0x1680 || (0x2000 ≤ c.val && c.val ≤ 0x200A) ||
  c.val = 0x2028 || c.val = 0x2029 || c.val = 0x202F || c.val = 0x205F ||
  c.val = 0x3000 || c.val = 0xFEFF

/-! ### Sanitization: `filter.replace(/\W\s":/g, '')` -/

/-- Does the stray-punctuation pattern `\W\s":` match at the head of `l`? -/
def hasStrayAt : List Char → Bool
  | c :: c2 :: c3 :: c4 :: _ =>
    !isWordChar c && isSpaceChar c2 && (c3 = '"') && (c4 = ':')
  | _ => false

/-- Does the stray-punctuation pattern `\W\s":` match anywhere in `l`? -/
def hasStray : List Char → Bool
  | [] => false
  | c :: rest => hasStrayAt (c :: rest) || hasStray rest

/-- Global regexp replacement `replace(/\W\s":/g, '')`: scan left to right,
removing non-overlapping four-character matches of `\W\s":` and resuming
right after each removed match. A positive `skip` drops that many
characters still belonging to the match just recognized. -/
def stripStrayAux : Nat → List Char → List Char
  | _ + 1, [] => []
  | skip + 1, _ :: rest => stripStrayAux skip rest
  | 0, [] => []
  | 0, c :: rest =>
    if hasStrayAt (c :: rest) then stripStrayAux 3 rest
    else c :: stripStrayAux 0 rest

/-- Removal of every non-overlapping match of `\W\s":`, left to right. -/
def stripStray (l : List Char) : List Char :=
  stripStrayAux 0 l

/-- `filter.replace(/\W\s":/g, '')` on strings. -/
def sanitize (s : String) : String :=
  ⟨stripStray s.data⟩

/-! ### The search-query tokenizer -/

/-- A token produced by the search-query tokenizer: either a recognized
`keyword:value` pair (a keyword offset) or a free-text term. -/
inductive SQPToken where
  | keywordTok (keyword : String) (value : String)
  | textTok (text : String)
deriving DecidableEq, Repr

/-- Modelled from the spec: term splitting of the third-party
search-query-parser `parse` used by the rule handler (that library is not
among this repository's sources). Whitespace separates terms, while a
double-quoted span keeps its whitespace, supporting the
`keyword:"multi word value"` syntax. `acc` holds the reversed characters of
the term being read; `inQuote` records an open double quote. -/
def termsAux (inQuote : Bool) (acc : List Char) : List Char → List (List Char)
  | [] => if acc.isEmpty then [] else [acc.reverse]
  | c :: rest =>
    if c = '"' then termsAux (!inQuote) (c :: acc) rest
    else if isSpaceChar c && !inQuote then
      if acc.isEmpty then termsAux false [] rest
      else acc.reverse :: termsAux false [] rest
    else termsAux inQuote (c :: acc) rest

/-- Split a term at its first colon: `some (key, value)` when a colon is
present, `none` otherwise. -/
def splitAtColon : List Char → Option (List Char × List Char)
  | [] => none
  | c :: rest =>
    if c = ':' then some ([], rest)
    else
      match splitAtColon rest with
      | none => none
      | some (k, v) => some (c :: k, v)

/-- Drop one leading double quote, when present. -/
def dropLeadQuote : List Char → List Char
  | '"' :: r => r
  | v => v

/-- Strip one surrounding pair of double quotes from a value
(`val.replace` of a leading and a trailing quote). -/
def stripQuotes (v : List Char) : List Char :=
  ((dropLeadQuote v).reverse |> dropLeadQuote).reverse

/-- Modelled from the spec: classification of one term by the third-party
search-query tokenizer. A term of the form `key:value` whose key is a
configured keyword becomes a keyword token with the surrounding quotes of
the value stripped; every other term is a free-text token. -/
def termToToken (keywords : List String) (term : List Char) : SQPToken :=
  match splitAtColon term with
  | none => .textTok ⟨term⟩
  | some (k, v) =>
    if keywords.contains ⟨k⟩ then .keywordTok ⟨k⟩ ⟨stripQuotes v⟩
    else .textTok ⟨term⟩

/-- Modelled from the spec: `parse(searchFilter, { keywords, tokenize: true })`
restricted to the keyword offsets the rule handler consumes. -/
def tokenizeSearch (keywords : List String) (s : String) : List SQPToken :=
  (termsAux false [] s.data).map (termToToken keywords)

/-! ### Event payload and predicate model -/

/-- Modelled from the spec: the inbound event payload (`PubSubData`, declared
in the rule handler's `index.ts`, which is not among this repository's
sources) — an optional item identifier plus the descriptive attributes the
predicates consult: a subscription/source name, textual content, and a
read-state marker. -/
structure PubSubData where
  id : Option String
  subscription : Option String
  content : Option String
  readState : Option String
deriving DecidableEq, Repr

/-- Modelled from the spec: the predicate variants (`SubscriptionFilter`,
`ContentFilter`, `ReadFilter`, declared under the rule handler's
`search_filter/`, which is not among this repository's sources). Each is
constructed from one keyword token's value. -/
inductive SearchFilter where
  | subscriptionF (value : String)
  | contentF (value : String)
  | readF (value : String)
deriving DecidableEq, Repr

/-- Substring containment on character lists: does `hay` contain `needle`
as a contiguous infix? -/
def containsInfix (hay needle : List Char) : Bool :=
  needle.isPrefixOf hay ||
    match hay with
    | [] => false
    | _ :: t => containsInfix t needle

/-- Modelled from the spec: the single predicate capability
`isValid(event) -> bool`. `SubscriptionFilter` tests equality with the
event's subscription name, `ContentFilter` tests substring containment in
the event's content, `ReadFilter` tests equality with the event's
read-state marker; a missing attribute is a non-match, never an error. -/
def SearchFilter.isValid : SearchFilter → PubSubData → Bool
  | .subscriptionF v, d =>
    match d.subscription with
    | some s => s = v
    | none => false
  | .contentF v, d =>
    match d.content with
    | some c => containsInfix c.data v.data
    | none => false
  | .readF v, d =>
    match d.readState with
    | some r => r = v
    | none => false

/-! ### The filter-expression parser and the rule matcher -/

/-- The keyword vocabulary passed to the tokenizer by `parseSearchFilter`. -/
def ruleKeywords : List String :=
  ["subscription", "content", "is", "type"]

/-- The `switch (keyword.keyword)` of `parseSearchFilter`: which predicate a
recognized keyword constructs from a value. -/
def keywordFilter (keyword value : String) : Option SearchFilter :=
  match keyword with
  | "subscription" => some (.subscriptionF value)
  | "content" => some (.contentF value)
  | "is" => some (.readF value)
  | "type" => some (.readF value)
  | _ => none

/-- The keyword-offset loop of `parseSearchFilter`: text tokens are ignored,
a keyword token with an empty value is skipped (`if (!keyword.value) continue`),
and the remaining keyword tokens are mapped through the keyword switch. -/
def filtersOfTokens (toks : List SQPToken) : List SearchFilter :=
  toks.filterMap fun t =>
    match t with
    | .textTok _ => none
    | .keywordTok kw v => if v = "" then none else keywordFilter kw v

/-- `parseSearchFilter` (rule.ts lines 36–75): sanitize the filter text when
it is truthy, return no predicates when the sanitized text is falsy or the
wildcard `*`, and otherwise tokenize and map the keyword tokens to
predicates. -/
def parseSearchFilter (filter : String) : List SearchFilter :=
  if filter = "" then []
  else
    let searchFilter := sanitize filter
    if searchFilter = "" || searchFilter = "*" then []
    else filtersOfTokens (tokenizeSearch ruleKeywords searchFilter)

/-- `isValidData` (rule.ts lines 77–86): an empty predicate sequence matches
unconditionally, otherwise every predicate must accept the event. -/
def isValidData (filter : String) (data : PubSubData) : Bool :=
  let searchFilters := parseSearchFilter filter
  if searchFilters.isEmpty then true
  else searchFilters.all fun searchFilter => searchFilter.isValid data

/-! ### Rules and actions -/

/-- `RuleActionType` (rule.ts lines 12–17). -/
inductive RuleActionType where
  | addLabel
  | archive
  | markAsRead
  | sendNotification
deriving DecidableEq, Repr

/-- `RuleAction` (rule.ts lines 19–22). -/
structure RuleAction where
  type : RuleActionType
  params : List String
deriving DecidableEq, Repr

/-- `Rule` (rule.ts lines 24–34); the timestamps are abstracted to numbers. -/
structure Rule where
  id : String
  userId : String
  name : String
  filter : String
  actions : List RuleAction
  description : Option String := none
  enabled : Bool
  createdAt : Nat := 0
  updatedAt : Nat := 0
deriving DecidableEq, Repr

/-! ### The action dispatcher -/

/-- One capability invocation started by the dispatcher, recording every
argument the source passes to the capability. -/
inductive CapCall where
  | addLabels (apiEndpoint authToken pageId : String) (labels : List String)
  | archivePage (apiEndpoint authToken pageId : String)
  | markPageAsRead (apiEndpoint authToken pageId : String)
  | sendNotification (apiEndpoint authToken message : String)
deriving DecidableEq, Repr

/-- The credential a capability invocation was made with. -/
def CapCall.tokenUsed : CapCall → String
  | .addLabels _ tok _ _ => tok
  | .archivePage _ tok _ => tok
  | .markPageAsRead _ tok _ => tok
  | .sendNotification _ tok _ => tok

/-- An observable effect of one dispatch call: the credential acquisition
(`getAuthToken`), or the launch of one capability invocation. -/
inductive TraceEvent where
  | authCall (userId jwtSecret : String)
  | capLaunch (call : CapCall)
deriving DecidableEq, Repr

/-- The environment of one dispatch call: the settled outcome of the
credential acquisition and, for each capability invocation, the settled
outcome of its promise. Both capabilities are external collaborators
(rule-handler modules not among this repository's sources). -/
structure DispatchEnv where
  authResult : Except String String
  capOutcome : CapCall → Except String String

/-- What one dispatch call is observed to do: its effect trace and the
value or error its returned promise settles to. -/
structure DispatchResult where
  trace : List TraceEvent
  result : Except String (List String)

/-- `Promise.all` over already-settled outcomes listed in launch order: the
list of values when every promise fulfilled, otherwise the error of the
first rejected promise (rejection order is abstracted to list order). -/
def promiseAll : List (Except String String) → Except String (List String)
  | [] => .ok []
  | .error e :: _ => .error e
  | .ok v :: rest =>
    match promiseAll rest with
    | .error e => .error e
    | .ok vs => .ok (v :: vs)

/-- The `switch (action.type)` inside `triggerActions` (rule.ts lines
141–171): the capability invocation one action produces, or `none` when a
precondition fails and the action is skipped. The JavaScript guards
`!data.id` are truthiness tests, so an empty-string identifier is also
rejected. -/
def handleAction (apiEndpoint authToken : String) (data : PubSubData)
    (action : RuleAction) : Option CapCall :=
  match action.type with
  | .addLabel =>
    match data.id with
    | some pageId =>
      if pageId = "" || action.params.isEmpty then none
      else some (.addLabels apiEndpoint authToken pageId action.params)
    | none => none
  | .archive =>
    match data.id with
    | some pageId =>
      if pageId = "" then none
      else some (.archivePage apiEndpoint authToken pageId)
    | none => none
  | .markAsRead =>
    match data.id with
    | some pageId =>
      if pageId = "" then none
      else some (.markPageAsRead apiEndpoint authToken pageId)
    | none => none
  | .sendNotification =>
    some (.sendNotification apiEndpoint authToken "New page added to your feed")

/-- `Array.prototype.flat()` on the dispatcher's per-rule results: an
`undefined` entry from a non-matching rule stays a single element, a
per-rule array is spliced in. -/
def jsFlat : List (Option (List (Option CapCall))) → List (Option CapCall)
  | [] => []
  | none :: rest => none :: jsFlat rest
  | some xs :: rest => xs ++ jsFlat rest

/-- `triggerActions` (rule.ts lines 127–175): await the credential, then for
each rule whose filter matches the event map its actions through the action
switch, flatten, drop the `undefined` placeholders, and join the launched
capability invocations with `Promise.all`. -/
def triggerActions (userId : String) (rules : List Rule) (data : PubSubData)
    (apiEndpoint jwtSecret : String) (env : DispatchEnv) : DispatchResult :=
  match env.authResult with
  | .error e => ⟨[.authCall userId jwtSecret], .error e⟩
  | .ok authToken =>
    let actionPromises : List (Option (List (Option CapCall))) :=
      rules.map fun rule =>
        if isValidData rule.filter data then
          some (rule.actions.map fun action =>
            handleAction apiEndpoint authToken data action)
        else none
    let launched : List CapCall := (jsFlat actionPromises).filterMap id
    ⟨.authCall userId jwtSecret :: launched.map .capLaunch,
      promiseAll (launched.map env.capOutcome)⟩

/-- The capability invocations one dispatch call launches, rule by rule:
nothing for a non-matching rule, and for a matching rule the eligible
actions in order. -/
def eligibleCalls (apiEndpoint authToken : String) (data : PubSubData) :
    List Rule → List CapCall
  | [] => []
  | rule :: rest =>
    (if isValidData rule.filter data then
      rule.actions.filterMap (handleAction apiEndpoint authToken data)
    else []) ++ eligibleCalls apiEndpoint authToken data rest

/-- A world for the effect-aware rule matcher: the rule and event being
consulted and the diagnostic log, the only thing the matcher writes. -/
structure MatcherWorld where
  rule : Rule
  event : PubSubData
  log : List String
deriving DecidableEq, Repr

/-- `isValidData` with its one side effect made explicit: the
`console.debug('no search filters found')` line appends to the log; the
rule and the event are only read. -/
def isValidDataW (w : MatcherWorld) : Bool × MatcherWorld :=
  let searchFilters := parseSearchFilter w.rule.filter
  if searchFilters.isEmpty then
    (true, { w with log := w.log ++ ["no search filters found"] })
  else
    (searchFilters.all fun searchFilter => searchFilter.isValid w.event, w)

/-- The first rejection, in launch order, among settled outcomes. -/
def firstError (ps : List (Except String String)) : Option String :=
  ps.findSome? fun p =>
    match p with
    | .error e => some e
    | .ok _ => none

/-! ### Helper lemmas -/

lemma stripStray_cons (c : Char) (rest : List Char)
    (h : hasStrayAt (c :: rest) = false) :
    stripStray (c :: rest) = c :: stripStray rest := by
  unfold stripStray
  rw [stripStrayAux, h]
  rfl

lemma stripStray_eq_self (l : List Char) (h : hasStray l = false) :
    stripStray l = l := by
  induction l with
  | nil => rfl
  | cons c rest ih =>
    rw [hasStray] at h
    rcases Bool.or_eq_false_iff.mp h with ⟨h1, h2⟩
    rw [stripStray_cons c rest h1, ih h2]

lemma hasStrayAt_eq_false_of_no_space (l : List Char)
    (h : ∀ c ∈ l, isSpaceChar c = false) : hasStrayAt l = false := by
  rcases l with _ | ⟨c, _ | ⟨c2, _ | ⟨c3, _ | ⟨c4, rest⟩⟩⟩⟩
  · rfl
  · rfl
  · rfl
  · rfl
  · have h2 : isSpaceChar c2 = false := h c2 (by simp)
    simp [hasStrayAt, h2]

lemma hasStray_eq_false_of_no_space (l : List Char)
    (h : ∀ c ∈ l, isSpaceChar c = false) : hasStray l = false := by
  induction l with
  | nil => rfl
  | cons c rest ih =>
    rw [hasStray]
    have h1 : hasStrayAt (c :: rest) = false :=
      hasStrayAt_eq_false_of_no_space _ h
    have h2 : hasStray rest = false :=
      ih fun x hx => h x (List.mem_cons_of_mem _ hx)
    simp [h1, h2]

lemma promiseAll_cons_err (e : String) (rest : List (Except String String)) :
    promiseAll (.error e :: rest) = .error e := rfl

lemma promiseAll_cons_ok (v : String) (rest : List (Except String String)) :
    promiseAll (.ok v :: rest)
      = match promiseAll rest with
        | .error e => .error e
        | .ok vs => .ok (v :: vs) := rfl

lemma firstError_nil : firstError [] = none := rfl

lemma firstError_cons_err (e : String) (rest : List (Except String String)) :
    firstError (.error e :: rest) = some e := rfl

lemma firstError_cons_ok (v : String) (rest : List (Except String String)) :
    firstError (.ok v :: rest) = firstError rest := rfl

lemma sanitize_eq_self (s : String) (h : hasStray s.data = false) :
    sanitize s = s := by
  unfold sanitize
  rw [stripStray_eq_self _ h]

lemma handleAction_tokenUsed (ep tok : String) (data : PubSubData)
    (a : RuleAction) (c : CapCall)
    (h : handleAction ep tok data a = some c) : c.tokenUsed = tok := by
  obtain ⟨ty, params⟩ := a
  cases ty
  case sendNotification =>
    simp only [handleAction] at h
    injection h with h'
    rw [← h']
    rfl
  case addLabel =>
    cases hid : data.id with
    | none =>
      simp only [handleAction, hid] at h
      cases h
    | some pid =>
      simp only [handleAction, hid] at h
      split at h
      · cases h
      · injection h with h'
        rw [← h']
        rfl
  case archive =>
    cases hid : data.id with
    | none =>
      simp only [handleAction, hid] at h
      cases h
    | some pid =>
      simp only [handleAction, hid] at h
      split at h
      · cases h
      · injection h with h'
        rw [← h']
        rfl
  case markAsRead =>
    cases hid : data.id with
    | none =>
      simp only [handleAction, hid] at h
      cases h
    | some pid =>
      simp only [handleAction, hid] at h
      split at h
      · cases h
      · injection h with h'
        rw [← h']
        rfl

lemma eligibleCalls_tokenUsed (ep tok : String) (data : PubSubData)
    (rules : List Rule) :
    ∀ c ∈ eligibleCalls ep tok data rules, c.tokenUsed = tok := by
  induction rules with
  | nil => intro c hc; cases hc
  | cons r rs ih =>
    intro c hc
    rw [eligibleCalls] at hc
    rcases List.mem_append.mp hc with hc | hc
    · by_cases hm : isValidData r.filter data
      · rw [if_pos hm] at hc
        obtain ⟨a, _, ha⟩ := List.mem_filterMap.mp hc
        exact handleAction_tokenUsed ep tok data a c ha
      · rw [if_neg hm] at hc
        cases hc
    · exact ih c hc

lemma promiseAll_ok_of_all (ps : List (Except String String))
    (h : ∀ p ∈ ps, ∃ v, p = .ok v) :
    ∃ vs, promiseAll ps = .ok vs ∧ vs.length = ps.length := by
  induction ps with
  | nil => exact ⟨[], rfl, rfl⟩
  | cons p rest ih =>
    obtain ⟨v, hv⟩ := h p (List.mem_cons_self _ _)
    obtain ⟨vs, hvs, hlen⟩ := ih fun q hq => h q (List.mem_cons_of_mem _ hq)
    subst hv
    refine ⟨v :: vs, ?_, by simp [hlen]⟩
    rw [promiseAll_cons_ok, hvs]

lemma promiseAll_error_iff (ps : List (Except String String)) (e : String) :
    promiseAll ps = .error e ↔ firstError ps = some e := by
  induction ps with
  | nil => simp [promiseAll, firstError, List.findSome?]
  | cons p rest ih =>
    cases p with
    | error e' =>
      rw [promiseAll_cons_err, firstError_cons_err]
      constructor
      · intro hh
        injection hh with h1
        rw [h1]
      · intro hh
        injection hh with h1
        rw [h1]
    | ok v =>
      rw [promiseAll_cons_ok, firstError_cons_ok, ← ih]
      cases hrest : promiseAll rest with
      | error e'' => simp
      | ok vs => simp

lemma launched_eq (ep tok : String) (data : PubSubData) (rules : List Rule) :
    (jsFlat (rules.map fun rule =>
      if isValidData rule.filter data then
        some (rule.actions.map fun action => handleAction ep tok data action)
      else none)).filterMap id
    = eligibleCalls ep tok data rules := by
  induction rules with
  | nil => rfl
  | cons r rs ih =>
    by_cases h : isValidData r.filter data
    · simp only [List.map_cons, h, if_pos, jsFlat, List.filterMap_append,
        eligibleCalls, ih]
      congr 1
      rw [List.filterMap_map]
      rfl
    · simp only [List.map_cons, h, if_neg, jsFlat, eligibleCalls, ih,
        Bool.false_eq_true, ite_false, List.filterMap]
      rfl

lemma triggerActions_ok (u : String) (rules : List Rule) (data : PubSubData)
    (ep js : String) (env : DispatchEnv) (tok : String)
    (h : env.authResult = .ok tok) :
    triggerActions u rules data ep js env =
      ⟨.authCall u js :: (eligibleCalls ep tok data rules).map .capLaunch,
        promiseAll ((eligibleCalls ep tok data rules).map env.capOutcome)⟩ := by
  unfold triggerActions
  rw [h]
  simp only [launched_eq]

lemma termsAux_nospace (l : List Char)
    (h : ∀ c ∈ l, isSpaceChar c = false ∧ c ≠ '"') :
    ∀ acc : List Char, acc ≠ [] ∨ l ≠ [] →
      termsAux false acc l = [acc.reverse ++ l] := by
  induction l with
  | nil =>
    intro acc hne
    rcases hne with hne | hne
    · rw [termsAux, if_neg (by simpa [List.isEmpty_iff] using hne)]
      simp
    · exact absurd rfl hne
  | cons c rest ih =>
    intro acc _
    obtain ⟨hs, hq⟩ := h c (List.mem_cons_self _ _)
    rw [termsAux, if_neg hq, if_neg (by simp [hs]),
      ih (fun x hx => h x (List.mem_cons_of_mem _ hx)) (c :: acc)
        (Or.inl (by simp))]
    simp

lemma splitAtColon_append (k v : List Char) (h : ∀ c ∈ k, c ≠ ':') :
    splitAtColon (k ++ ':' :: v) = some (k, v) := by
  induction k with
  | nil => rw [List.nil_append, splitAtColon, if_pos rfl]
  | cons c kk ih =>
    rw [List.cons_append, splitAtColon,
      if_neg (h c (List.mem_cons_self _ _)),
      ih fun x hx => h x (List.mem_cons_of_mem _ hx)]

lemma dropLeadQuote_of_ne (v : List Char) (h : ∀ c ∈ v, c ≠ '"') :
    dropLeadQuote v = v := by
  cases v with
  | nil => rfl
  | cons c r =>
    have hc : c ≠ '"' := h c (List.mem_cons_self _ _)
    rw [dropLeadQuote.eq_def]
    split
    · rename_i r' heq
      injection heq with h1 _
      exact absurd h1 hc
    · rfl

lemma stripQuotes_of_no_quote (v : List Char) (h : ∀ c ∈ v, c ≠ '"') :
    stripQuotes v = v := by
  unfold stripQuotes
  rw [dropLeadQuote_of_ne v h,
    dropLeadQuote_of_ne v.reverse fun c hc => h c (List.mem_reverse.mp hc),
    List.reverse_reverse]

lemma tokenizeSearch_single (k : List Char) (lv : List Char)
    (hk : ∀ c ∈ k, isSpaceChar c = false ∧ c ≠ '"' ∧ c ≠ ':')
    (hc : ∀ c ∈ lv, isSpaceChar c = false ∧ c ≠ '"' ∧ c ≠ ':')
    (hmem : ruleKeywords.contains ⟨k⟩ = true) :
    tokenizeSearch ruleKeywords ⟨k ++ ':' :: lv⟩
      = [.keywordTok ⟨k⟩ ⟨lv⟩] := by
  unfold tokenizeSearch
  have hall : ∀ c ∈ k ++ ':' :: lv, isSpaceChar c = false ∧ c ≠ '"' := by
    intro c hcm
    rcases List.mem_append.mp hcm with hcm | hcm
    · exact ⟨(hk c hcm).1, (hk c hcm).2.1⟩
    · rcases List.mem_cons.mp hcm with hcm | hcm
      · subst hcm
        exact ⟨by decide, by decide⟩
      · exact ⟨(hc c hcm).1, (hc c hcm).2.1⟩
  rw [show (⟨k ++ ':' :: lv⟩ : String).data = k ++ ':' :: lv from rfl]
  rw [termsAux_nospace _ hall [] (Or.inr (by simp))]
  rw [List.map_singleton, List.reverse_nil, List.nil_append]
  unfold termToToken
  rw [splitAtColon_append k lv fun c hcm => (hk c hcm).2.2]
  simp only [hmem, if_true]
  rw [stripQuotes_of_no_quote lv fun c hcm => (hc c hcm).2.1]

lemma parseSearchFilter_single (k lv : List Char)
    (hk : ∀ c ∈ k, isSpaceChar c = false ∧ c ≠ '"' ∧ c ≠ ':')
    (hc : ∀ c ∈ lv, isSpaceChar c = false ∧ c ≠ '"' ∧ c ≠ ':')
    (hmem : ruleKeywords.contains ⟨k⟩ = true)
    (hlv : lv ≠ []) :
    parseSearchFilter ⟨k ++ ':' :: lv⟩
      = (keywordFilter ⟨k⟩ ⟨lv⟩).toList := by
  have hne : (⟨k ++ ':' :: lv⟩ : String) ≠ "" := by
    intro hcontra
    have h2 := congrArg String.data hcontra
    simp at h2
  have hstar : (⟨k ++ ':' :: lv⟩ : String) ≠ "*" := by
    intro hcontra
    have h2 := congrArg String.data hcontra
    have hm : ':' ∈ (['*'] : List Char) := by
      rw [show (['*'] : List Char) = (String.data "*") from rfl, ← h2]
      exact List.mem_append_right _ (List.mem_cons_self _ _)
    simp at hm
  have hnostray : hasStray (⟨k ++ ':' :: lv⟩ : String).data = false := by
    apply hasStray_eq_false_of_no_space
    intro c hcm
    rcases List.mem_append.mp hcm with hcm | hcm
    · exact (hk c hcm).1
    · rcases List.mem_cons.mp hcm with hcm | hcm
      · subst hcm
        decide
      · exact (hc c hcm).1
  have hlvs : (⟨lv⟩ : String) ≠ "" := by
    intro hcontra
    exact hlv (congrArg String.data hcontra)
  simp only [parseSearchFilter]
  rw [if_neg hne, sanitize_eq_self _ hnostray,
    if_neg (by simp [hne, hstar]), tokenizeSearch_single k lv hk hc hmem]
  simp only [filtersOfTokens, List.filterMap]
  rw [if_neg hlvs]
  cases keywordFilter ⟨k⟩ ⟨lv⟩ <;> rfl

/-- Is a trace event a capability launch? -/
def isCapLaunch : TraceEvent → Bool
  | .capLaunch _ => true
  | .authCall _ _ => false

lemma countP_capLaunch (u js : String) (calls : List CapCall) :
    List.countP isCapLaunch
        (.authCall u js :: calls.map .capLaunch) = calls.length := by
  rw [List.countP_cons_of_neg _ _ (by simp [isCapLaunch]), List.countP_map]
  induction calls with
  | nil => rfl
  | cons c cs ih =>
    rw [List.countP_cons_of_pos _ _ (by simp [isCapLaunch]), ih,
      List.length_cons]

lemma eligibleCalls_eq_nil (ep tok : String) (data : PubSubData)
    (rules : List Rule)
    (h : ∀ r ∈ rules, isValidData r.filter data = false ∨
      ∀ a ∈ r.actions, handleAction ep tok data a = none) :
    eligibleCalls ep tok data rules = [] := by
  induction rules with
  | nil => rfl
  | cons r rs ih =>
    rw [eligibleCalls]
    have hrest := ih fun q hq => h q (List.mem_cons_of_mem _ hq)
    rcases h r (List.mem_cons_self _ _) with hr | hr
    · simp [hr, hrest]
    · rw [hrest]
      by_cases hm : isValidData r.filter data
      · rw [if_pos hm, List.filterMap_eq_nil_iff.mpr hr]
        rfl
      · rw [if_neg hm]
        rfl

/-! ### Concrete inputs used by the witnesses -/

/-- A sample inbound event with every attribute present. -/
def sampleEvent : PubSubData :=
  { id := some "abc", subscription := some "X",
    content := some "some foo text", readState := some "unread" }

/-- A sample inbound event with no attributes at all. -/
def emptyEvent : PubSubData :=
  { id := none, subscription := none, content := none, readState := none }

/-! ### Claim theorems -/

/-- C2: if a rule's filter text is the empty string or exactly `*` after
sanitization, the parser returns an empty predicate sequence and
`isValidData` returns `true` for every event — such a rule matches every
event unconditionally. -/
theorem claim_c2 (filter : String) (data : PubSubData)
    (h : sanitize filter = "" ∨ sanitize filter = "*") :
    parseSearchFilter filter = [] ∧ isValidData filter data = true := by
  have hp : parseSearchFilter filter = [] := by
    unfold parseSearchFilter
    by_cases hf : filter = ""
    · simp [hf]
    · rcases h with h | h <;> simp [hf, h]
  refine ⟨hp, ?_⟩
  unfold isValidData
  simp [hp]

/-- Witness for C2 at the wildcard filter `*`. -/
theorem claim_c2_witness :
    (sanitize "*" = "" ∨ sanitize "*" = "*") ∧
      (parseSearchFilter "*" = [] ∧ isValidData "*" emptyEvent = true) :=
  ⟨Or.inr (by decide), claim_c2 "*" emptyEvent (Or.inr (by decide))⟩

/-- C3: whenever the parse of a filter text yields a non-empty predicate
sequence, `isValidData` returns `true` exactly when every predicate in the
sequence accepts the event — logical AND across all tokens. -/
theorem claim_c3 (filter : String) (data : PubSubData)
    (h : parseSearchFilter filter ≠ []) :
    isValidData filter data = true ↔
      ∀ sf ∈ parseSearchFilter filter, sf.isValid data = true := by
  unfold isValidData
  rw [if_neg (by simpa [List.isEmpty_iff] using h)]
  exact List.all_eq_true

/-- Witness for C3 at the filter `is:unread` and a concrete event. -/
theorem claim_c3_witness :
    parseSearchFilter "is:unread" ≠ [] ∧
      (isValidData "is:unread" sampleEvent = true ↔
        ∀ sf ∈ parseSearchFilter "is:unread", sf.isValid sampleEvent = true) :=
  ⟨by decide, claim_c3 "is:unread" sampleEvent (by decide)⟩

/-- C7: parsing and matching are total — every filter text, however
malformed, evaluates to a defined boolean on every event (the embedding of
`parseSearchFilter` and `isValidData` is Option-free, modelling that the
source never throws) — and a parse that yields fewer tokens than intended
only broadens the match: if the actual predicates form a sublist of the
intended ones and the event satisfies all intended predicates, the rule
still matches. -/
theorem claim_c7 (filter : String) (data : PubSubData) :
    (isValidData filter data = true ∨ isValidData filter data = false) ∧
      (∀ intended : List SearchFilter,
        (parseSearchFilter filter).Sublist intended →
        intended.all (fun sf => sf.isValid data) = true →
        isValidData filter data = true) := by
  constructor
  · rcases Bool.eq_false_or_eq_true (isValidData filter data) with h | h
    · exact Or.inl h
    · exact Or.inr h
  · intro intended hsub hall
    unfold isValidData
    by_cases hp : (parseSearchFilter filter).isEmpty
    · simp [hp]
    · rw [if_neg (by simpa using hp), List.all_eq_true]
      intro sf hsf
      exact List.all_eq_true.mp hall sf (hsub.subset hsf)

/-- Witness for C7 at the malformed filter `subscription:` (a keyword with
an empty value), whose parse degrades to the no-op match. -/
theorem claim_c7_witness :
    (isValidData "subscription:" emptyEvent = true ∨
      isValidData "subscription:" emptyEvent = false) ∧
      ((parseSearchFilter "subscription:").Sublist [] →
        List.all ([] : List SearchFilter) (fun sf => sf.isValid emptyEvent)
            = true →
        isValidData "subscription:" emptyEvent = true) :=
  ⟨(claim_c7 "subscription:" emptyEvent).1,
    fun hs ha => (claim_c7 "subscription:" emptyEvent).2 [] hs ha⟩

/-- C9: the rule matcher is deterministic and side-effect free — in the
effect-aware embedding `isValidDataW`, two evaluations over worlds that
agree on the rule and the event return the same boolean (whatever the
prior log), that boolean is the pure `isValidData`, and the rule and the
event are left unchanged. -/
theorem claim_c9 (w₁ w₂ : MatcherWorld)
    (hr : w₁.rule = w₂.rule) (he : w₁.event = w₂.event) :
    (isValidDataW w₁).1 = (isValidDataW w₂).1 ∧
      (isValidDataW w₁).1 = isValidData w₁.rule.filter w₁.event ∧
      (isValidDataW w₁).2.rule = w₁.rule ∧
      (isValidDataW w₁).2.event = w₁.event := by
  unfold isValidDataW isValidData
  by_cases hp : (parseSearchFilter w₁.rule.filter).isEmpty <;>
    simp [← hr, ← he, hp]

/-- A sample rule used by the witnesses. -/
def sampleRule : Rule :=
  { id := "r1", userId := "u", name := "n", filter := "is:unread",
    actions := [⟨.addLabel, ["todo"]⟩], enabled := true }

/-- A wildcard rule with an archive action followed by a notification. -/
def starRule : Rule :=
  { id := "r2", userId := "u", name := "n2", filter := "*",
    actions := [⟨.archive, []⟩, ⟨.sendNotification, []⟩], enabled := true }

/-- An event carrying only an item identifier. -/
def eventAbc : PubSubData :=
  { id := some "abc", subscription := none, content := none,
    readState := none }

/-- An environment whose archive capability fails while every other
capability succeeds. -/
def failEnv : DispatchEnv :=
  { authResult := .ok "tok",
    capOutcome := fun c =>
      if c = .archivePage "ep" "tok" "abc" then .error "boom" else .ok "done" }

/-- An environment in which authentication and every capability succeed. -/
def okEnv : DispatchEnv :=
  { authResult := .ok "tok", capOutcome := fun _ => .ok "done" }

/-- An environment whose credential acquisition fails. -/
def badAuthEnv : DispatchEnv :=
  { authResult := .error "no auth", capOutcome := fun _ => .ok "done" }

/-- C4: per-action dispatch preconditions. An AddLabel action produces a
capability call exactly when the event carries a (truthy, i.e. non-empty)
item identifier and the action's params are non-empty; Archive and
MarkAsRead exactly when the event carries such an identifier;
SendNotification always, with the fixed message payload; a failed
precondition means the action is skipped and contributes no capability
call, and in every successful dispatch the launched capability calls are
exactly those the per-action switch produces for the matching rules. -/
theorem claim_c4 (ep tok : String) (data : PubSubData) (action : RuleAction) :
    (action.type = .addLabel →
      (((∃ c, handleAction ep tok data action = some c) ↔
          (∃ pid, data.id = some pid ∧ pid ≠ "") ∧ action.params ≠ []) ∧
        ∀ pid, data.id = some pid → pid ≠ "" → action.params ≠ [] →
          handleAction ep tok data action
            = some (.addLabels ep tok pid action.params))) ∧
      (action.type = .archive →
        (((∃ c, handleAction ep tok data action = some c) ↔
            ∃ pid, data.id = some pid ∧ pid ≠ "") ∧
          ∀ pid, data.id = some pid → pid ≠ "" →
            handleAction ep tok data action
              = some (.archivePage ep tok pid))) ∧
      (action.type = .markAsRead →
        (((∃ c, handleAction ep tok data action = some c) ↔
            ∃ pid, data.id = some pid ∧ pid ≠ "") ∧
          ∀ pid, data.id = some pid → pid ≠ "" →
            handleAction ep tok data action
              = some (.markPageAsRead ep tok pid))) ∧
      (action.type = .sendNotification →
        handleAction ep tok data action
          = some (.sendNotification ep tok "New page added to your feed")) ∧
      (∀ u js env rules, env.authResult = .ok tok →
        (triggerActions u rules data ep js env).trace
          = .authCall u js ::
              (eligibleCalls ep tok data rules).map .capLaunch) := by
  obtain ⟨ty, params⟩ := action
  refine ⟨?_, ?_, ?_, ?_, ?_⟩
  · rintro rfl
    constructor
    · cases hid : data.id with
      | none => simp [handleAction, hid]
      | some pid =>
        by_cases hp : pid = ""
        · simp [handleAction, hid, hp]
        · by_cases hpar : params = []
          · simp [handleAction, hid, hp, hpar]
          · simp only [handleAction, hid]
            rw [if_neg (by simp [hp, hpar])]
            constructor
            · intro _
              exact ⟨⟨pid, rfl, hp⟩, hpar⟩
            · intro _
              exact ⟨_, rfl⟩
    · intro pid hid hp hpar
      simp only [handleAction, hid]
      rw [if_neg (by simp [hp, hpar])]
  · rintro rfl
    constructor
    · cases hid : data.id with
      | none => simp [handleAction, hid]
      | some pid =>
        simp only [handleAction, hid]
        by_cases hp : pid = "" <;> simp [hp, hid]
    · intro pid hid hp
      simp only [handleAction, hid]
      rw [if_neg (by simpa using hp)]
  · rintro rfl
    constructor
    · cases hid : data.id with
      | none => simp [handleAction, hid]
      | some pid =>
        simp only [handleAction, hid]
        by_cases hp : pid = "" <;> simp [hp, hid]
    · intro pid hid hp
      simp only [handleAction, hid]
      rw [if_neg (by simpa using hp)]
  · rintro rfl
    simp [handleAction]
  · intro u js env rules htok
    rw [triggerActions_ok u rules data ep js env tok htok]

/-- Witness for C4: an AddLabel action with one label on an event with a
present identifier produces the addLabels capability call. -/
theorem claim_c4_witness :
    (⟨RuleActionType.addLabel, ["todo"]⟩ : RuleAction).type
        = RuleActionType.addLabel ∧
      handleAction "ep" "tok" eventAbc ⟨.addLabel, ["todo"]⟩
        = some (.addLabels "ep" "tok" "abc" ["todo"]) :=
  ⟨rfl,
    ((claim_c4 "ep" "tok" eventAbc ⟨.addLabel, ["todo"]⟩).1 rfl).2 "abc" rfl
      (by decide) (by decide)⟩

/-- C10: the collection a dispatch call resolves to has exactly one entry
per capability launch — when every attempted action succeeds, the resolved
list is as long as the number of capability launches in the trace — and
when every rule either fails to match or has all its actions skipped by a
failed precondition, nothing is launched and the dispatch resolves to the
empty collection. -/
theorem claim_c10 (u : String) (rules : List Rule) (data : PubSubData)
    (ep js : String) (env : DispatchEnv) (tok : String)
    (h : env.authResult = .ok tok) :
    ((∀ c ∈ eligibleCalls ep tok data rules, ∃ v, env.capOutcome c = .ok v) →
      ∃ vs, (triggerActions u rules data ep js env).result = .ok vs ∧
        vs.length = List.countP isCapLaunch
          (triggerActions u rules data ep js env).trace) ∧
      ((∀ r ∈ rules, isValidData r.filter data = false ∨
          ∀ a ∈ r.actions, handleAction ep tok data a = none) →
        List.countP isCapLaunch
            (triggerActions u rules data ep js env).trace = 0 ∧
          (triggerActions u rules data ep js env).result = .ok []) := by
  rw [triggerActions_ok u rules data ep js env tok h]
  constructor
  · intro hok
    obtain ⟨vs, hvs, hlen⟩ := promiseAll_ok_of_all
      ((eligibleCalls ep tok data rules).map env.capOutcome)
      (by
        intro p hp
        obtain ⟨c, hc, hcp⟩ := List.mem_map.mp hp
        obtain ⟨v, hv⟩ := hok c hc
        exact ⟨v, by rw [← hcp, hv]⟩)
    refine ⟨vs, hvs, ?_⟩
    rw [hlen, List.length_map, countP_capLaunch]
  · intro hnone
    rw [eligibleCalls_eq_nil ep tok data rules hnone]
    exact ⟨by simp [isCapLaunch], rfl⟩

/-- Witness for C10 at a rule whose filter does not match the event: the
dispatch launches nothing and resolves to the empty collection. -/
theorem claim_c10_witness :
    okEnv.authResult = .ok "tok" ∧
      (∀ r ∈ [sampleRule],
        isValidData r.filter eventAbc = false ∨
          ∀ a ∈ r.actions, handleAction "ep" "tok" eventAbc a = none) ∧
      List.countP isCapLaunch
          (triggerActions "u" [sampleRule] eventAbc "ep" "js" okEnv).trace
          = 0 ∧
      (triggerActions "u" [sampleRule] eventAbc "ep" "js" okEnv).result
        = .ok [] := by
  refine ⟨rfl, ?_, ?_⟩
  · decide
  · exact (claim_c10 "u" [sampleRule] eventAbc "ep" "js" okEnv "tok" rfl).2
      (by decide)

/-- C1 counterexample: a dispatch launching two actions, the first of which
fails while the second settles successfully, settles to the bare first
failure — `Promise.all` propagates the first failure as a total abort and
reports no per-action outcome for the second attempted action, refuting
the claimed per-action aggregation. -/
theorem claim_c1_counterexample :
    (triggerActions "u" [starRule] eventAbc "ep" "js" failEnv).result
        = .error "boom" ∧
      (triggerActions "u" [starRule] eventAbc "ep" "js" failEnv).trace
        = [.authCall "u" "js",
            .capLaunch (.archivePage "ep" "tok" "abc"),
            .capLaunch
              (.sendNotification "ep" "tok" "New page added to your feed")] ∧
      failEnv.capOutcome
          (.sendNotification "ep" "tok" "New page added to your feed")
        = .ok "done" :=
  ⟨rfl, rfl, rfl⟩

/-- C1 amended: every eligible action is launched before the join, so one
action's failure does not prevent the others from being launched and
running to completion; but the join is `Promise.all`'s fail-fast: when
every attempted action succeeds the dispatch resolves to one outcome per
attempted action, and otherwise it rejects with the error of the first
failing action in launch order, reporting no outcome for the rest. -/
theorem claim_c1_amended (u : String) (rules : List Rule) (data : PubSubData)
    (ep js : String) (env : DispatchEnv) (tok : String)
    (h : env.authResult = .ok tok) :
    (triggerActions u rules data ep js env).trace
        = .authCall u js :: (eligibleCalls ep tok data rules).map .capLaunch ∧
      ((∀ c ∈ eligibleCalls ep tok data rules, ∃ v, env.capOutcome c = .ok v) →
        ∃ vs, (triggerActions u rules data ep js env).result = .ok vs ∧
          vs.length = (eligibleCalls ep tok data rules).length) ∧
      (∀ e, (triggerActions u rules data ep js env).result = .error e ↔
        firstError ((eligibleCalls ep tok data rules).map env.capOutcome)
          = some e) := by
  rw [triggerActions_ok u rules data ep js env tok h]
  refine ⟨rfl, ?_, ?_⟩
  · intro hok
    obtain ⟨vs, hvs, hlen⟩ := promiseAll_ok_of_all
      ((eligibleCalls ep tok data rules).map env.capOutcome)
      (by
        intro p hp
        obtain ⟨c, hc, hcp⟩ := List.mem_map.mp hp
        obtain ⟨v, hv⟩ := hok c hc
        exact ⟨v, by rw [← hcp, hv]⟩)
    exact ⟨vs, hvs, by rw [hlen, List.length_map]⟩
  · intro e
    exact promiseAll_error_iff _ e

/-- Witness for the amended C1 at an all-success environment: the dispatch
resolves to one outcome per attempted action. -/
theorem claim_c1_witness :
    okEnv.authResult = .ok "tok" ∧
      ∃ vs,
        (triggerActions "u" [starRule] eventAbc "ep" "js" okEnv).result
            = .ok vs ∧
          vs.length = (eligibleCalls "ep" "tok" eventAbc [starRule]).length :=
  ⟨rfl,
    (claim_c1_amended "u" [starRule] eventAbc "ep" "js" okEnv "tok" rfl).2.1
      fun _ _ => ⟨"done", rfl⟩⟩

/-- C6: the keywords `is` and `type` resolve to the identical predicate:
the keyword switch maps them to the same `ReadFilter` for every value, and
for every plain value token `v` the filters `is:v` and `type:v` parse to
the same one-element predicate sequence and yield identical match
decisions on every event. -/
theorem claim_c6 (v : String) (data : PubSubData) :
    keywordFilter "is" v = keywordFilter "type" v ∧
      (v ≠ "" → (∀ c ∈ v.data, isSpaceChar c = false ∧ c ≠ '"' ∧ c ≠ ':') →
        parseSearchFilter ("is:" ++ v) = [.readF v] ∧
          parseSearchFilter ("type:" ++ v) = [.readF v] ∧
          isValidData ("is:" ++ v) data = isValidData ("type:" ++ v) data) := by
  refine ⟨rfl, fun hv hc => ?_⟩
  obtain ⟨lv⟩ := v
  have hlv : lv ≠ [] := fun h => hv (by rw [show lv = String.data ⟨lv⟩ from rfl] at h; exact String.ext h)
  have h1 : parseSearchFilter ("is:" ++ (⟨lv⟩ : String)) = [.readF ⟨lv⟩] := by
    rw [show ("is:" ++ (⟨lv⟩ : String)) = ⟨['i', 's'] ++ ':' :: lv⟩ from rfl,
      parseSearchFilter_single ['i', 's'] lv (by decide) hc (by decide) hlv]
    rfl
  have h2 : parseSearchFilter ("type:" ++ (⟨lv⟩ : String))
      = [.readF ⟨lv⟩] := by
    rw [show ("type:" ++ (⟨lv⟩ : String)) = ⟨['t', 'y', 'p', 'e'] ++ ':' :: lv⟩
        from rfl,
      parseSearchFilter_single ['t', 'y', 'p', 'e'] lv (by decide) hc
        (by decide) hlv]
    rfl
  refine ⟨h1, h2, ?_⟩
  unfold isValidData
  rw [h1, h2]

/-- Witness for C6 at the value `unread` and a concrete event. -/
theorem claim_c6_witness :
    ("unread" : String) ≠ "" ∧
      (∀ c ∈ (String.data "unread"), isSpaceChar c = false ∧ c ≠ '"' ∧
        c ≠ ':') ∧
      parseSearchFilter "is:unread" = [.readF "unread"] ∧
      parseSearchFilter "type:unread" = [.readF "unread"] ∧
      isValidData "is:unread" sampleEvent
        = isValidData "type:unread" sampleEvent :=
  ⟨by decide, by decide,
    (claim_c6 "unread" sampleEvent).2 (by decide) (by decide)⟩

/-- C8: sanitization strips exactly the matches of the stray-punctuation
pattern `\W\s":`; on every filter text with no occurrence of that pattern
it is the identity, and tokenization then operates on the original text
unchanged. -/
theorem claim_c8 (filter : String) (h : hasStray filter.data = false) :
    sanitize filter = filter ∧
      (filter ≠ "" → filter ≠ "*" →
        parseSearchFilter filter
          = filtersOfTokens (tokenizeSearch ruleKeywords filter)) := by
  have hs : sanitize filter = filter := sanitize_eq_self filter h
  refine ⟨hs, fun h1 h2 => ?_⟩
  unfold parseSearchFilter
  rw [if_neg h1]
  simp only [hs]
  rw [if_neg (by simp [h1, h2])]

/-- Witness for C8 at a pattern-free filter text. -/
theorem claim_c8_witness :
    hasStray (String.data "is:unread") = false ∧
      sanitize "is:unread" = "is:unread" ∧
      ("is:unread" ≠ "" → "is:unread" ≠ "*" →
        parseSearchFilter "is:unread"
          = filtersOfTokens (tokenizeSearch ruleKeywords "is:unread")) := by
  refine ⟨by decide, ?_⟩
  exact claim_c8 "is:unread" (by decide)

/-- C5: the credential is acquired exactly once, first, and reused: when
acquisition fails the dispatch call surfaces that failure with no
capability invoked, and when it succeeds the trace is the single
acquisition followed only by capability launches, all carrying the
acquired token. -/
theorem claim_c5 (u : String) (rules : List Rule) (data : PubSubData)
    (ep js : String) (env : DispatchEnv) :
    (∀ e, env.authResult = .error e →
      triggerActions u rules data ep js env
        = ⟨[.authCall u js], .error e⟩) ∧
      (∀ tok, env.authResult = .ok tok →
        (triggerActions u rules data ep js env).trace
            = .authCall u js ::
                (eligibleCalls ep tok data rules).map .capLaunch ∧
          ∀ ev ∈ (triggerActions u rules data ep js env).trace,
            ev = .authCall u js ∨
              ∃ c, ev = .capLaunch c ∧ c.tokenUsed = tok) := by
  constructor
  · intro e he
    unfold triggerActions
    rw [he]
  · intro tok htok
    rw [triggerActions_ok u rules data ep js env tok htok]
    refine ⟨rfl, ?_⟩
    intro ev hev
    rcases List.mem_cons.mp hev with h | h
    · exact Or.inl h
    · obtain ⟨c, hc, hev⟩ := List.mem_map.mp h
      exact Or.inr ⟨c, hev.symm, eligibleCalls_tokenUsed ep tok data rules c hc⟩

/-- Witness for C5 at a failing credential acquisition: the dispatch call
surfaces the failure and launches no capability. -/
theorem claim_c5_witness :
    badAuthEnv.authResult = .error "no auth" ∧
      triggerActions "u" [starRule] eventAbc "ep" "js" badAuthEnv
        = ⟨[.authCall "u" "js"], .error "no auth"⟩ :=
  ⟨rfl,
    (claim_c5 "u" [starRule] eventAbc "ep" "js" badAuthEnv).1 "no auth" rfl⟩

/-- Witness for C9: two worlds sharing the rule and event but with
different logs. -/
theorem claim_c9_witness :
    (isValidDataW ⟨sampleRule, sampleEvent, []⟩).1
        = (isValidDataW ⟨sampleRule, sampleEvent, ["earlier line"]⟩).1 ∧
      (isValidDataW ⟨sampleRule, sampleEvent, []⟩).1
        = isValidData sampleRule.filter sampleEvent ∧
      (isValidDataW ⟨sampleRule, sampleEvent, []⟩).2.rule = sampleRule ∧
      (isValidDataW ⟨sampleRule, sampleEvent, []⟩).2.event = sampleEvent :=
  claim_c9 ⟨sampleRule, sampleEvent, []⟩ ⟨sampleRule, sampleEvent, ["earlier line"]⟩
    rfl rfl

end RuleHandler
